import Mathlib

/-!
Verification of the safe-feature-addition CLI (src/scripts/safe-feature.py)
against its natural-language specification.

The program is embedded shallowly: strings become `List Char`, Python string
primitives (`str.find`, slicing with negative bounds, `str.strip`,
`str.split`) are reproduced exactly, and the two commands `verify_cmd` and
`audit_cmd` are translated line by line from the source.  File-system access
and the external `git diff` call are modelled as explicit inputs: a source
tree is the list of (filename, read outcome) pairs the directory walk visits,
and the diff text arrives as an `Except` value that is an error when the
subprocess call raises.
-/

/-- The single-quote character (code 39), written via `Char.ofNat`. -/
def squote : Char := Char.ofNat 39

/-- The double-quote character (code 34). -/
def dquote : Char := Char.ofNat 34

/-- The opening-brace character (code 123). -/
def lbrace : Char := Char.ofNat 123

/-- Python `str.strip()` whitespace (ASCII part): space, tab, newline,
carriage return, vertical tab, form feed. -/
def pyIsSpace (c : Char) : Bool :=
  c == ' ' || c == '\t' || c == '\n' || c == '\r' || c == '\x0b' || c == '\x0c'

/-- The regex word class `\w` restricted to ASCII: letters, digits, underscore.
Used by the (defined but never applied) `destructive_patterns` regexes. -/
def isWordChar (c : Char) : Bool := c.isAlphanum || c == '_'

/-- The regex class `[a-zA-Z0-9_-]` from the config-key pattern
`^([a-zA-Z0-9_-]+):` (safe-feature.py line 55). -/
def isFlagChar (c : Char) : Bool := c.isAlphanum || c == '_' || c == '-'

/-- A character accepted by `['\"]` in the flag-call regex: a single or double
quote. -/
def isQuote (c : Char) : Bool := c == squote || c == dquote

/-- A character accepted by the argument class `[^'\" \n]` of the flag-call
regex (safe-feature.py line 62): anything except a single quote, a double
quote, a space, or a newline.  Tabs and all punctuation are accepted. -/
def argChar (c : Char) : Bool := !(c == squote || c == dquote || c == ' ' || c == '\n')

/-- Python `str.split('\n')`: splits on every newline, keeping empty pieces,
and yields one (empty) piece for the empty string. -/
def splitNl : List Char → List (List Char)
  | [] => [[]]
  | c :: cs =>
    if c = '\n' then [] :: splitNl cs
    else
      match splitNl cs with
      | [] => [[c]]
      | l :: ls => (c :: l) :: ls

/-- Index of the first character satisfying `p`, if any. -/
def findIx (p : Char → Bool) : List Char → Option Nat
  | [] => none
  | c :: cs => if p c then some 0 else (findIx p cs).map (fun j => j + 1)

/-- Python `str.find(c)`: the index of the first occurrence of `c`, or `-1`
when `c` does not occur. -/
def pyFind (c : Char) (l : List Char) : Int :=
  match findIx (fun x => x == c) l with
  | some i => (i : Int)
  | none => -1

/-- Python slicing `l[a:b]` (step 1): negative bounds count from the end,
bounds are clamped to `[0, len]`, and an empty list results when the resolved
start is not below the resolved stop. -/
def pySlice (l : List Char) (a b : Int) : List Char :=
  (l.take (if b < 0 then max ((l.length : Int) + b) 0 else min b (l.length : Int)).toNat).drop
    (if a < 0 then max ((l.length : Int) + a) 0 else min a (l.length : Int)).toNat

/-- Python `str.strip()`: remove leading and trailing whitespace. -/
def pyStrip (l : List Char) : List Char :=
  ((l.dropWhile pyIsSpace).reverse.dropWhile pyIsSpace).reverse

/-- The parameter text the audit loop extracts from one diff line
(safe-feature.py lines 125-126): `line[line.find('(')+1:line.find(')')].strip()`. -/
def paramOf (l : List Char) : List Char :=
  pyStrip (pySlice l (pyFind '(' l + 1) (pyFind ')' l))

/-- The same extraction described positionally (the amended reading of the
spec sentence): between the first `(` and the first `)` when a `)` exists
(empty when that `)` precedes the `(`), and from after the first `(` up to but
excluding the final character when no `)` exists; stripped of surrounding
whitespace. -/
def specParamOf (l : List Char) : List Char :=
  match findIx (fun x => x == '(') l with
  | none => []
  | some i =>
    match findIx (fun x => x == ')') l with
    | some j => pyStrip ((l.take j).drop (i + 1))
    | none => pyStrip ((l.take (l.length - 1)).drop (i + 1))

/-- `lines = diff.split('\n')` (safe-feature.py line 118). -/
def diffLines (diff : String) : List (List Char) := splitNl diff.data

/-- The audit scan (safe-feature.py lines 117-134): for every adjacent pair
of diff lines whose first starts with `-` and second with `+`, if both lines
contain `(`, extract the stripped parameter slices, and record a warning
`(i, old_params, new_params)` exactly when the new text is strictly longer
and contains no `=`. -/
def auditWarnings (diff : String) : List (Nat × List Char × List Char) :=
  (List.range ((diffLines diff).length - 1)).filterMap (fun i =>
    if ((diffLines diff).getD i []).head? = some '-'
        ∧ ((diffLines diff).getD (i + 1) []).head? = some '+'
        ∧ '(' ∈ (diffLines diff).getD i []
        ∧ '(' ∈ (diffLines diff).getD (i + 1) [] then
      if (paramOf ((diffLines diff).getD i [])).length
            < (paramOf ((diffLines diff).getD (i + 1) [])).length
          ∧ '=' ∉ paramOf ((diffLines diff).getD (i + 1) []) then
        some (i, paramOf ((diffLines diff).getD i []),
                 paramOf ((diffLines diff).getD (i + 1) []))
      else none
    else none)

/-- Strip a literal pattern from the front of a list, returning the rest. -/
def stripPre : List Char → List Char → Option (List Char)
  | [], s => some s
  | _ :: _, [] => none
  | p :: ps, c :: cs => if p = c then stripPre ps cs else none

/-- `re.search` driver: does the anchored matcher `m` succeed at some
position of the input? -/
def reSearch (m : List Char → Bool) : List Char → Bool
  | [] => m []
  | c :: cs => m (c :: cs) || reSearch m cs

/-- Anchored matcher for the first `destructive_patterns` regex
(safe-feature.py line 112), `marker` then `function\s+\w+\(([^)]*)\)`:
the marker is `-` for the removed-line pattern and `+` for the added-line
pattern. -/
def funSigAt (marker : Char) (s : List Char) : Bool :=
  match stripPre (marker :: "function".data) s with
  | none => false
  | some r =>
    !(r.takeWhile pyIsSpace).isEmpty &&
    (let r1 := r.dropWhile pyIsSpace
     !(r1.takeWhile isWordChar).isEmpty &&
     (match r1.dropWhile isWordChar with
      | '(' :: r2 =>
        (match r2.dropWhile (fun c => !(c == ')')) with
         | ')' :: _ => true
         | _ => false)
      | _ => false))

/-- Anchored matcher for the second `destructive_patterns` regex
(safe-feature.py line 114), `marker` then `\s+\w+\(([^)]*)\)\s+\{`. -/
def methodSigAt (marker : Char) (s : List Char) : Bool :=
  match s with
  | [] => false
  | m :: r =>
    m == marker &&
    !(r.takeWhile pyIsSpace).isEmpty &&
    (let r1 := r.dropWhile pyIsSpace
     !(r1.takeWhile isWordChar).isEmpty &&
     (match r1.dropWhile isWordChar with
      | '(' :: r2 =>
        (match r2.dropWhile (fun c => !(c == ')')) with
         | ')' :: r3 =>
           !(r3.takeWhile pyIsSpace).isEmpty &&
           (match r3.dropWhile pyIsSpace with
            | c :: _ => c == lbrace
            | [] => false)
         | _ => false)
      | _ => false))

/-- A removed diff line matches one of the two removed-side shape regexes of
`destructive_patterns` (which the source defines but never applies). -/
def minusShape (l : List Char) : Bool :=
  reSearch (funSigAt '-') l || reSearch (methodSigAt '-') l

/-- An added diff line matches one of the two added-side shape regexes of
`destructive_patterns`. -/
def plusShape (l : List Char) : Bool :=
  reSearch (funSigAt '+') l || reSearch (methodSigAt '+') l

/-- The shape filter as paired in `destructive_patterns`: both lines match
the free-function pattern, or both match the method pattern. -/
def shapePair (line nx : List Char) : Bool :=
  (reSearch (funSigAt '-') line && reSearch (funSigAt '+') nx) ||
  (reSearch (methodSigAt '-') line && reSearch (methodSigAt '+') nx)

/-- One multiline-anchored match of `^([a-zA-Z0-9_-]+):` on a single line
(safe-feature.py line 55): the maximal leading run of flag characters,
provided it is nonempty and followed immediately by `:`. -/
def lineKey (l : List Char) : Option (List Char) :=
  if l.takeWhile isFlagChar = [] then none
  else
    match l.dropWhile isFlagChar with
    | ':' :: _ => some (l.takeWhile isFlagChar)
    | _ => none

/-- `re.findall(r'^([a-zA-Z0-9_-]+):', content, re.MULTILINE)`
(safe-feature.py line 55): one captured key per line whose start matches. -/
def extractConfigFlags (content : String) : List (List Char) :=
  (splitNl content.data).filterMap lineKey

/-- First alternative of the flag-call regex: the literal `isEnabled`. -/
def spell1 : List Char := "isEnabled".data

/-- Second alternative of the flag-call regex: the literal `is_enabled`. -/
def spell2 : List Char := "is_enabled".data

/-- Third alternative of the flag-call regex: the literal `check`. -/
def spell3 : List Char := "check".data

/-- Anchored match of one alternative `SPELLING\(['\"]([^'\" \n]+)['\"]` of
the flag-call regex (safe-feature.py line 62) at the start of `s`.  The
greedy argument class excludes both quote characters, so the capture is the
maximal `argChar` run and must be followed directly by a closing quote.
Returns the captured argument and the input remaining after the match. -/
def matchCall (sp : List Char) (s : List Char) : Option (List Char × List Char) :=
  match stripPre (sp ++ ['(']) s with
  | none => none
  | some [] => none
  | some (q :: r2) =>
    if isQuote q then
      match r2.dropWhile argChar with
      | q2 :: r3 =>
        if r2.takeWhile argChar ≠ [] ∧ isQuote q2 = true then
          some (r2.takeWhile argChar, r3)
        else none
      | [] => none
    else none

/-- Try the three alternatives of the flag-call regex, in the order Python
tries them.  Their leading literals are mutually exclusive, so at most one
can match at a given position. -/
def tryFlag (s : List Char) : Option (List Char × List Char) :=
  match matchCall spell1 s with
  | some r => some r
  | none =>
    match matchCall spell2 s with
    | some r => some r
    | none => matchCall spell3 s

/-- The `re.findall` scan over one file's contents: at each position try the
pattern; on success record the capture and resume after the match, otherwise
advance one character.  `fuel` bounds the recursion; every step consumes at
least one character, so `fuel = length` suffices. -/
def scanGo : Nat → List Char → List (List Char)
  | 0, _ => []
  | _ + 1, [] => []
  | fuel + 1, c :: t =>
    match tryFlag (c :: t) with
    | some (run, rest) => run :: scanGo fuel rest
    | none => scanGo fuel t

/-- `flag_regex.findall(file_content)` with the capture groups collapsed by
`next(filter(None, m), None)` (safe-feature.py lines 73-76): the list of flag
names referenced in one file, in match order. -/
def scanFlags (s : List Char) : List (List Char) := scanGo s.length s

/-- One file the directory walk visits: its name and the outcome of
`open(..., 'r', errors='ignore').read()` — `some` holds the decoded text
(decoding problems already dropped by `errors='ignore'`), `none` means the
open or read raised an `OSError`. -/
structure SrcFile where
  name : String
  contents : Option String

/-- `self.supported_exts` (safe-feature.py line 38). -/
def supportedExts : List String :=
  [".js", ".ts", ".jsx", ".tsx", ".py", ".go", ".rs"]

/-- `name.endswith(ext)` on the underlying characters. -/
def endsWithL (l p : List Char) : Bool :=
  decide (p.length ≤ l.length) && l.drop (l.length - p.length) == p

/-- `any(file.endswith(ext) for ext in self.supported_exts)`
(safe-feature.py line 69). -/
def matchesExt (name : String) : Bool :=
  supportedExts.any (fun e => endsWithL name.data e.data)

/-- The scanning phase of `verify` (safe-feature.py lines 65-76) over the
files the walk visits, in order.  There is no per-file exception handler in
the source, so the first file whose open/read raises aborts the whole scan
with the exception (`Except.error`); otherwise the referenced flag names of
all scanned files are collected in order. -/
def scanUsed : List SrcFile → Except Unit (List (List Char))
  | [] => Except.ok []
  | f :: rest =>
    if matchesExt f.name then
      match f.contents with
      | none => Except.error ()
      | some c => (scanUsed rest).map (fun used => scanFlags c.data ++ used)
    else scanUsed rest

/-- `missing = [f for f in used_flags if f not in config_flags]`
(safe-feature.py line 81).  `used_flags` is a Python set of strings; its
iteration order is not determined by the input (string hashing is randomized
per process), so the enumeration the loop sees is passed explicitly as
`usedEnum`. -/
def missingReport (usedEnum : List (List Char)) (cfgFlags : List (List Char)) :
    List (List Char) :=
  usedEnum.filter (fun f => !(cfgFlags.contains f))

/-- `unused = [f for f in config_flags if f not in used_flags]`
(safe-feature.py line 82): iterates the config match list, whose order is the
order of lines in the config file. -/
def unusedReport (cfgFlags : List (List Char)) (usedFlags : List (List Char)) :
    List (List Char) :=
  cfgFlags.filter (fun f => !(usedFlags.contains f))

/-- `verify_cmd` (safe-feature.py lines 40-95).  `config` is `none` when the
config file is missing or unreadable (both cases return `False` early); otherwise the
config keys are extracted, the tree is scanned (an uncaught per-file read
exception propagates as `Except.error`), and the command returns `True` iff
`missing` is empty.  The result depends on `missing` only through emptiness,
so the set's enumeration order is irrelevant here and the scan order is
used. -/
def verify_cmd (config : Option String) (tree : List SrcFile) : Except Unit Bool :=
  match config with
  | none => Except.ok false
  | some content =>
    match scanUsed tree with
    | Except.error e => Except.error e
    | Except.ok used =>
      Except.ok (missingReport used (extractConfigFlags content)).isEmpty

/-- The process exit status of `verify` (safe-feature.py line 165 plus the
interpreter's exit code 1 for an uncaught exception):
`sys.exit(0 if success else 1)`. -/
def exitOf (r : Except Unit Bool) : Nat :=
  match r with
  | Except.ok true => 0
  | Except.ok false => 1
  | Except.error _ => 1

/-- `audit_cmd` (safe-feature.py lines 97-145): if the `git diff` subprocess
call raises, return `False` (lines 101-105); otherwise run the warning scan
and return `True` regardless of the warning count (line 145). -/
def audit_cmd (diffResult : Except String String) :
    Bool × List (Nat × List Char × List Char) :=
  match diffResult with
  | Except.error _ => (false, [])
  | Except.ok diff => (true, auditWarnings diff)

/-- The process exit status of `audit` (safe-feature.py line 168):
`sys.exit(0 if success else 1)`. -/
def auditExit (r : Except String String) : Nat :=
  if (audit_cmd r).1 = true then 0 else 1

/-! ## Auxiliary lemmas -/

/-- Characters kept by `takeWhile` satisfy the predicate. -/
theorem aux_mem_tw {p : Char → Bool} : ∀ {l : List Char} {c : Char},
    c ∈ l.takeWhile p → p c = true := by
  intro l
  induction l with
  | nil => intro c h; simp [List.takeWhile] at h
  | cons a t ih =>
    intro c h
    rw [List.takeWhile_cons] at h
    by_cases hpa : p a
    · rw [if_pos hpa] at h
      rcases List.mem_cons.mp h with rfl | h2
      · exact hpa
      · exact ih h2
    · rw [if_neg hpa] at h
      simp at h

/-- `takeWhile` of a list whose front all satisfies `p` and is then broken by
`y`. -/
theorem aux_tw_of_append {p : Char → Bool} :
    ∀ (xs : List Char) (y : Char) (r : List Char),
      (∀ c ∈ xs, p c = true) → p y = false →
      (xs ++ y :: r).takeWhile p = xs := by
  intro xs
  induction xs with
  | nil =>
    intro y r _ hy
    simp [List.takeWhile_cons, hy]
  | cons a t ih =>
    intro y r hall hy
    have hpa : p a = true := hall a (List.mem_cons_self a t)
    simp only [List.cons_append, List.takeWhile_cons, hpa, if_true]
    rw [ih y r (fun c hc => hall c (List.mem_cons_of_mem a hc)) hy]

/-- `dropWhile` counterpart of `aux_tw_of_append`. -/
theorem aux_dw_of_append {p : Char → Bool} :
    ∀ (xs : List Char) (y : Char) (r : List Char),
      (∀ c ∈ xs, p c = true) → p y = false →
      (xs ++ y :: r).dropWhile p = y :: r := by
  intro xs
  induction xs with
  | nil =>
    intro y r _ hy
    simp [List.dropWhile_cons, hy]
  | cons a t ih =>
    intro y r hall hy
    have hpa : p a = true := hall a (List.mem_cons_self a t)
    simp only [List.cons_append, List.dropWhile_cons, hpa, if_true]
    exact ih y r (fun c hc => hall c (List.mem_cons_of_mem a hc)) hy

/-- A successful `stripPre` decomposes the input. -/
theorem aux_stripPre_eq : ∀ (p s r : List Char), stripPre p s = some r → s = p ++ r := by
  intro p
  induction p with
  | nil =>
    intro s r h
    simp [stripPre] at h
    simp [h]
  | cons a ps ih =>
    intro s r h
    cases s with
    | nil => simp [stripPre] at h
    | cons c cs =>
      rw [stripPre] at h
      split_ifs at h with hac
      · subst hac
        rw [List.cons_append]
        rw [ih cs r h]

/-- A found index is inside the list. -/
theorem aux_findIx_lt {p : Char → Bool} : ∀ {l : List Char} {i : Nat},
    findIx p l = some i → i < l.length := by
  intro l
  induction l with
  | nil => intro i h; simp [findIx] at h
  | cons a t ih =>
    intro i h
    rw [findIx] at h
    by_cases hpa : p a
    · rw [if_pos hpa] at h
      have : (0 : Nat) = i := Option.some.inj h
      simp [← this]
    · rw [if_neg hpa] at h
      rcases Option.map_eq_some'.mp h with ⟨j, hj, rfl⟩
      have := ih hj
      simp only [List.length_cons]
      omega

/-- A list containing a character the predicate accepts yields some index. -/
theorem aux_findIx_total {p : Char → Bool} : ∀ {l : List Char},
    (∃ c ∈ l, p c = true) → ∃ i, findIx p l = some i := by
  intro l
  induction l with
  | nil => rintro ⟨c, hc, _⟩; simp at hc
  | cons a t ih =>
    rintro ⟨c, hc, hpc⟩
    by_cases hpa : p a
    · exact ⟨0, by rw [findIx, if_pos hpa]⟩
    · rcases List.mem_cons.mp hc with rfl | hct
      · exact absurd hpc (by simp [hpa])
      · obtain ⟨i, hi⟩ := ih ⟨c, hct, hpc⟩
        exact ⟨i + 1, by rw [findIx, if_neg hpa, hi]; rfl⟩

/-- `pySlice` with nonnegative in-range bounds is plain `take`/`drop`. -/
theorem aux_pySlice_nat (l : List Char) (a b : Nat)
    (ha : a ≤ l.length) (hb : b ≤ l.length) :
    pySlice l (a : Int) (b : Int) = (l.take b).drop a := by
  unfold pySlice
  rw [if_neg (by omega : ¬ ((a : Int) < 0)), if_neg (by omega : ¬ ((b : Int) < 0))]
  rw [min_eq_left (by exact_mod_cast ha), min_eq_left (by exact_mod_cast hb)]
  rw [show ((a : Int)).toNat = a by omega, show ((b : Int)).toNat = b by omega]

/-- `pySlice` whose stop bound is `-1` cuts the final character. -/
theorem aux_pySlice_neg_one (l : List Char) (a : Nat)
    (ha : a ≤ l.length) (hl : 1 ≤ l.length) :
    pySlice l (a : Int) (-1) = (l.take (l.length - 1)).drop a := by
  unfold pySlice
  rw [if_neg (by omega : ¬ ((a : Int) < 0)), if_pos (by omega : (-1 : Int) < 0)]
  rw [min_eq_left (by exact_mod_cast ha)]
  rw [max_eq_left (by omega : (0 : Int) ≤ (l.length : Int) + -1)]
  rw [show ((a : Int)).toNat = a by omega,
      show ((l.length : Int) + -1).toNat = l.length - 1 by omega]

/-- Membership in the audit warning list, characterized: a warning for index
`i` is emitted exactly when the adjacent pair at `i` passes the marker and
parenthesis checks and the stripped parameter slices grew without gaining an
`=`. -/
theorem aux_mem_audit (diff : String) (i : Nat) (o n : List Char) :
    (i, o, n) ∈ auditWarnings diff ↔
      (i + 1 < (diffLines diff).length
        ∧ ((diffLines diff).getD i []).head? = some '-'
        ∧ ((diffLines diff).getD (i + 1) []).head? = some '+'
        ∧ '(' ∈ (diffLines diff).getD i []
        ∧ '(' ∈ (diffLines diff).getD (i + 1) []
        ∧ o = paramOf ((diffLines diff).getD i [])
        ∧ n = paramOf ((diffLines diff).getD (i + 1) [])
        ∧ o.length < n.length
        ∧ '=' ∉ n) := by
  unfold auditWarnings
  rw [List.mem_filterMap]
  constructor
  · rintro ⟨j, hj, hf⟩
    rw [List.mem_range] at hj
    split_ifs at hf with h1 h2
    · simp only [Option.some.injEq, Prod.mk.injEq] at hf
      obtain ⟨rfl, rfl, rfl⟩ := hf
      exact ⟨by omega, h1.1, h1.2.1, h1.2.2.1, h1.2.2.2, rfl, rfl, h2.1, h2.2⟩
  · rintro ⟨hlen, h1, h2, h3, h4, rfl, rfl, hlt, hne⟩
    refine ⟨i, List.mem_range.mpr (by omega), ?_⟩
    rw [if_pos ⟨h1, h2, h3, h4⟩, if_pos ⟨hlt, hne⟩]

/-- `pyFind` when the character occurs. -/
theorem aux_pyFind_some {c : Char} {l : List Char} {i : Nat}
    (h : findIx (fun x => x == c) l = some i) : pyFind c l = (i : Int) := by
  unfold pyFind
  rw [h]

/-- `pyFind` when the character is absent. -/
theorem aux_pyFind_none {c : Char} {l : List Char}
    (h : findIx (fun x => x == c) l = none) : pyFind c l = -1 := by
  unfold pyFind
  rw [h]

/-- On any line containing `(`, the audit's slice-and-strip extraction agrees
with its positional description `specParamOf`. -/
theorem aux_param_eq : ∀ l : List Char, '(' ∈ l → paramOf l = specParamOf l := by
  intro l hl
  obtain ⟨i, hi⟩ := aux_findIx_total (p := fun x => x == '(') ⟨'(', hl, by simp⟩
  have hil : i < l.length := aux_findIx_lt hi
  cases hj : findIx (fun x => x == ')') l with
  | some j =>
    have hjl : j < l.length := aux_findIx_lt hj
    have hps : paramOf l = pyStrip ((l.take j).drop (i + 1)) := by
      unfold paramOf
      rw [aux_pyFind_some hi, aux_pyFind_some hj]
      rw [show ((i : Int) + 1) = ((i + 1 : Nat) : Int) by push_cast; ring]
      rw [aux_pySlice_nat l (i + 1) j (by omega) (by omega)]
    have hss : specParamOf l = pyStrip ((l.take j).drop (i + 1)) := by
      unfold specParamOf
      simp only [hi, hj]
    rw [hps, hss]
  | none =>
    have hps : paramOf l = pyStrip ((l.take (l.length - 1)).drop (i + 1)) := by
      unfold paramOf
      rw [aux_pyFind_some hi, aux_pyFind_none hj]
      rw [show ((i : Int) + 1) = ((i + 1 : Nat) : Int) by push_cast; ring]
      rw [aux_pySlice_neg_one l (i + 1) (by omega) (by omega)]
    have hss : specParamOf l = pyStrip ((l.take (l.length - 1)).drop (i + 1)) := by
      unfold specParamOf
      simp only [hi, hj]
    rw [hps, hss]

/-! ## Claims -/

/-- C1, amended (the claim's shape filter comes from the `destructive_patterns`
list, which the source defines but never applies): a warning for the adjacent
pair at index `i` is emitted exactly when the removed line starts with `-`,
the added line starts with `+`, both contain `(`, and the stripped parameter
slices strictly grew without the new one containing `=` — no signature-shape
condition is involved. -/
theorem C1_theorem : ∀ (diff : String) (i : Nat) (o n : List Char),
    (i, o, n) ∈ auditWarnings diff ↔
      (i + 1 < (diffLines diff).length
        ∧ ((diffLines diff).getD i []).head? = some '-'
        ∧ ((diffLines diff).getD (i + 1) []).head? = some '+'
        ∧ '(' ∈ (diffLines diff).getD i []
        ∧ '(' ∈ (diffLines diff).getD (i + 1) []
        ∧ o = paramOf ((diffLines diff).getD i [])
        ∧ n = paramOf ((diffLines diff).getD (i + 1) [])
        ∧ o.length < n.length
        ∧ '=' ∉ n) :=
  fun diff i o n => aux_mem_audit diff i o n

/-- C1, counterexample to the claim as stated: the pair `-x(a)` / `+x(abc)`
matches neither shape regex of `destructive_patterns` (no `function` keyword,
no brace), yet the audit emits a warning for it. -/
theorem C1_counterexample :
    (0, ['a'], ['a', 'b', 'c']) ∈ auditWarnings "-x(a)\n+x(abc)"
    ∧ shapePair ("-x(a)".data) ("+x(abc)".data) = false
    ∧ minusShape ("-x(a)".data) = false
    ∧ plusShape ("+x(abc)".data) = false := by
  decide

/-- C2, amended: the audited parameter text is the stripped Python slice
`line[line.find('(')+1:line.find(')')]`, i.e. between the first `(` and the
first `)` when a `)` exists (empty when that `)` precedes the `(`), and from
after the first `(` up to but excluding the final character when `)` is
absent; a pair one of whose lines lacks `(` is skipped entirely. -/
theorem C2_theorem :
    (∀ l : List Char, '(' ∈ l → paramOf l = specParamOf l)
    ∧ ∀ (diff : String) (i : Nat) (o n : List Char),
        (i, o, n) ∈ auditWarnings diff →
          '(' ∈ (diffLines diff).getD i [] ∧ '(' ∈ (diffLines diff).getD (i + 1) [] := by
  refine ⟨aux_param_eq, fun diff i o n h => ?_⟩
  have hc := (aux_mem_audit diff i o n).mp h
  exact ⟨hc.2.2.2.1, hc.2.2.2.2.1⟩

/-- C2, witness: the slice/positional agreement evaluated on a concrete line
containing `(`. -/
theorem C2_witness :
    '(' ∈ ("-f(ab".data) ∧ paramOf ("-f(ab".data) = specParamOf ("-f(ab".data) :=
  ⟨by decide, C2_theorem.1 ("-f(ab".data) (by decide)⟩

/-- C2, counterexample to the claim as stated: on the line `-f(ab`, which
contains `(` but no `)`, the extracted old parameter text is `a`, not the
empty string, and the pair `-f(ab` / `+g(wxyz` produces a warning built from
these non-empty extractions. -/
theorem C2_counterexample :
    paramOf ("-f(ab".data) = ['a']
    ∧ (['a'] : List Char) ≠ []
    ∧ (0, ['a'], ['w', 'x', 'y']) ∈ auditWarnings "-f(ab\n+g(wxyz" := by
  decide

/-- C5, confirmed: the audit command reports success for every diff text the
external invocation delivers, whatever the warning list is, and reports
failure exactly when the diff invocation fails. -/
theorem C5_theorem : ∀ (d e : String),
    (audit_cmd (Except.ok d)).1 = true
    ∧ auditExit (Except.ok d) = 0
    ∧ (audit_cmd (Except.error e)).1 = false
    ∧ auditExit (Except.error e) = 1 :=
  fun d e => ⟨rfl, rfl, rfl, rfl⟩

/-- C9, confirmed: a warning whose new parameter text contains `=` is never
emitted. -/
theorem C9_theorem : ∀ (diff : String) (i : Nat) (o n : List Char),
    (i, o, n) ∈ auditWarnings diff → '=' ∉ n :=
  fun diff i o n h => ((aux_mem_audit diff i o n).mp h).2.2.2.2.2.2.2.2

/-- C9, witness: the Scenario-B pair does emit a warning, and its new
parameter text indeed contains no `=`. -/
theorem C9_witness :
    (0, "amount".data, "amount, userId".data)
        ∈ auditWarnings "-function pay(amount) \x7b\n+function pay(amount, userId) \x7b"
    ∧ '=' ∉ ("amount, userId".data) :=
  ⟨by decide,
   C9_theorem "-function pay(amount) \x7b\n+function pay(amount, userId) \x7b" 0
     ("amount".data) ("amount, userId".data) (by decide)⟩

/-- The scan succeeds exactly when every file with a recognized source
extension could be opened and read. -/
theorem aux_scanUsed_ok : ∀ tree : List SrcFile,
    (∃ used, scanUsed tree = Except.ok used) ↔
      (∀ f ∈ tree, matchesExt f.name = true → f.contents ≠ none) := by
  intro tree
  induction tree with
  | nil => simp [scanUsed]
  | cons f rest ih =>
    rw [scanUsed]
    by_cases hm : matchesExt f.name
    · rw [if_pos hm]
      cases hc : f.contents with
      | none =>
        constructor
        · rintro ⟨used, h⟩
          simp at h
        · intro h
          exact absurd hc (h f (List.mem_cons_self f rest) hm)
      | some c =>
        constructor
        · rintro ⟨used, h⟩
          intro g hg hmg
          rcases List.mem_cons.mp hg with rfl | hgr
          · rw [hc]; simp
          · cases hr : scanUsed rest with
            | error e => rw [hr] at h; simp [Except.map] at h
            | ok u => exact (ih.mp ⟨u, hr⟩) g hgr hmg
        · intro h
          obtain ⟨u, hu⟩ := ih.mpr (fun g hg hmg => h g (List.mem_cons_of_mem f hg) hmg)
          exact ⟨scanFlags c.data ++ u, by rw [hu]; rfl⟩
    · rw [if_neg hm]
      constructor
      · intro hex
        intro g hg hmg
        rcases List.mem_cons.mp hg with rfl | hgr
        · exact absurd hmg (by simp [hm])
        · exact (ih.mp hex) g hgr hmg
      · intro h
        exact ih.mpr (fun g hg hmg => h g (List.mem_cons_of_mem f hg) hmg)

/-- C3, amended: decoding problems in a scanned file are tolerated (the read
delivers the decodable text and the scan continues), but an I/O failure
opening or reading any file with a recognized extension is not caught
anywhere in `verify_cmd`: the scan — and with it the whole verify command —
aborts with the exception, exiting non-zero. -/
theorem C3_theorem : ∀ tree : List SrcFile,
    ((∃ used, scanUsed tree = Except.ok used) ↔
      (∀ f ∈ tree, matchesExt f.name = true → f.contents ≠ none))
    ∧ ∀ cfg : String, scanUsed tree = Except.error () →
        verify_cmd (some cfg) tree = Except.error ()
        ∧ exitOf (verify_cmd (some cfg) tree) = 1 := by
  intro tree
  refine ⟨aux_scanUsed_ok tree, fun cfg h => ?_⟩
  unfold verify_cmd
  rw [h]
  exact ⟨rfl, rfl⟩

/-- C3, witness: on a tree whose second source file is unreadable, the scan
aborts and verify exits 1. -/
theorem C3_witness :
    scanUsed [⟨"a.py", some "check(\x27x\x27)"⟩, ⟨"b.py", none⟩] = Except.error ()
    ∧ exitOf (verify_cmd (some "x:\n")
        [⟨"a.py", some "check(\x27x\x27)"⟩, ⟨"b.py", none⟩]) = 1 :=
  ⟨rfl, (( C3_theorem [⟨"a.py", some "check(\x27x\x27)"⟩, ⟨"b.py", none⟩]).2 "x:\n" rfl).2⟩

/-- C3, counterexample to the claim as stated: a per-file read failure is not
recovered — with one unreadable `.py` file in the tree, the whole verify
command aborts with the exception instead of skipping the file. -/
theorem C3_counterexample :
    verify_cmd (some "x:\n") [⟨"ok.py", some "is_enabled(\x27x\x27)"⟩, ⟨"bad.py", none⟩]
      = Except.error ()
    ∧ exitOf (verify_cmd (some "x:\n")
        [⟨"ok.py", some "is_enabled(\x27x\x27)"⟩, ⟨"bad.py", none⟩]) = 1 :=
  ⟨rfl, rfl⟩

/-- C4, confirmed: an absent or unreadable config makes verify return failure
before any scanning (its result does not depend on the tree), and on a
readable config with a completed scan the command exits 0 exactly when the
missing set — used flags absent from the config keys — is empty; declared
but unused flags never affect the outcome. -/
theorem C4_theorem (cfg : String) (tree : List SrcFile) (used : List (List Char))
    (h : scanUsed tree = Except.ok used) :
    exitOf (verify_cmd none tree) = 1
    ∧ verify_cmd none tree = verify_cmd none []
    ∧ (exitOf (verify_cmd (some cfg) tree) = 0 ↔
        missingReport used (extractConfigFlags cfg) = []) := by
  refine ⟨rfl, rfl, ?_⟩
  have hv : verify_cmd (some cfg) tree
      = Except.ok (missingReport used (extractConfigFlags cfg)).isEmpty := by
    unfold verify_cmd
    rw [h]
  rw [hv]
  cases hm : missingReport used (extractConfigFlags cfg) with
  | nil => simp [exitOf]
  | cons a t => simp [exitOf]

/-- C4, witness: a config declaring `alpha` and the unused `extra`, with one
source file using `alpha`, exits 0; the same tree with an unreadable config
exits 1. -/
theorem C4_witness :
    exitOf (verify_cmd (some "alpha:\nextra:\n") [⟨"m.py", some "check(\x27alpha\x27)"⟩]) = 0
    ∧ exitOf (verify_cmd none [⟨"m.py", some "check(\x27alpha\x27)"⟩]) = 1 :=
  ⟨( C4_theorem "alpha:\nextra:\n" [⟨"m.py", some "check(\x27alpha\x27)"⟩]
      ["alpha".data] rfl).2.2.mpr (by decide),
   ( C4_theorem "alpha:\nextra:\n" [⟨"m.py", some "check(\x27alpha\x27)"⟩]
      ["alpha".data] rfl).1⟩

/-- A tree with no recognized source extension contributes nothing. -/
theorem aux_scanUsed_empty : ∀ tree : List SrcFile,
    (∀ f ∈ tree, matchesExt f.name = false) → scanUsed tree = Except.ok [] := by
  intro tree
  induction tree with
  | nil => intro _; rfl
  | cons f rest ih =>
    intro h
    rw [scanUsed, if_neg (by simp [h f (List.mem_cons_self f rest)])]
    exact ih (fun g hg => h g (List.mem_cons_of_mem f hg))

/-- C10, confirmed: when no visited file has a recognized source extension
(in particular when the walk visits nothing because the path does not exist),
the used set is empty, so the missing set is empty and verify succeeds with
exit 0 for any readable config. -/
theorem C10_theorem (cfg : String) (tree : List SrcFile)
    (h : ∀ f ∈ tree, matchesExt f.name = false) :
    verify_cmd (some cfg) tree = Except.ok true
    ∧ exitOf (verify_cmd (some cfg) tree) = 0 := by
  have hs := aux_scanUsed_empty tree h
  constructor
  · unfold verify_cmd
    rw [hs]
    rfl
  · unfold exitOf verify_cmd
    rw [hs]
    rfl

/-- C10, witness: a tree holding only an (even unreadable) non-source file
verifies successfully against a config that declares unused flags. -/
theorem C10_witness :
    verify_cmd (some "alpha:\nbeta:\n") [⟨"README.md", none⟩] = Except.ok true :=
  ( C10_theorem "alpha:\nbeta:\n" [⟨"README.md", none⟩] (by decide)).1

/-- A line yields a config key exactly when it starts with a nonempty run of
flag characters followed directly by `:`. -/
theorem aux_lineKey : ∀ (l key : List Char), lineKey l = some key ↔
    (key ≠ [] ∧ (∀ c ∈ key, isFlagChar c = true) ∧ ∃ rest, l = key ++ ':' :: rest) := by
  intro l key
  constructor
  · intro h
    unfold lineKey at h
    split_ifs at h with h0
    split at h
    · rename_i tail heq
      have hk := Option.some.inj h
      subst hk
      refine ⟨h0, fun c hc => aux_mem_tw hc, tail, ?_⟩
      conv_lhs => rw [← List.takeWhile_append_dropWhile (p := isFlagChar) (l := l)]
      rw [heq]
    · simp at h
  · rintro ⟨hne, hmem, rest, rfl⟩
    have htw := aux_tw_of_append key ':' rest hmem (by decide)
    have hdw := aux_dw_of_append key ':' rest hmem (by decide)
    unfold lineKey
    rw [htw, hdw, if_neg hne]
    rfl

/-- C6, confirmed: a name is among the extracted config flags exactly when
some line of the config text consists of that name — a nonempty token of
characters from `[a-zA-Z0-9_-]` — at the very start of the line, followed
immediately by `:`; indented keys never start a line with a flag character,
so they are never included. -/
theorem C6_theorem : ∀ (content : String) (key : List Char),
    key ∈ extractConfigFlags content ↔
      ∃ l, l ∈ splitNl content.data
        ∧ key ≠ []
        ∧ (∀ c ∈ key, isFlagChar c = true)
        ∧ ∃ rest, l = key ++ ':' :: rest := by
  intro content key
  unfold extractConfigFlags
  rw [List.mem_filterMap]
  exact exists_congr (fun l => and_congr_right (fun _ => aux_lineKey l key))

/-- C7: the missing report is the filter of an enumeration of the used-flag
set, and two enumerations of the same set — both orders Python's
hash-randomized set iteration may produce across two process runs — yield
differently ordered reports on the same input. -/
theorem C7_theorem :
    (∀ x : List Char,
      x ∈ [("alpha".data : List Char), "beta".data] ↔
        x ∈ [("beta".data : List Char), "alpha".data])
    ∧ missingReport ["alpha".data, "beta".data] []
        ≠ missingReport ["beta".data, "alpha".data] [] := by
  constructor
  · intro x
    simp only [List.mem_cons, List.not_mem_nil, or_false]
    tauto
  · decide

/-- A successful anchored match of one regex alternative decomposes the
input: the spelling, an opening parenthesis, a quote, the nonempty captured
argument of `argChar` characters, a closing quote, and the remainder. -/
theorem aux_matchCall_sound : ∀ (sp s run rest : List Char),
    matchCall sp s = some (run, rest) →
      run ≠ [] ∧ (∀ c ∈ run, argChar c = true)
      ∧ ∃ q q2, isQuote q = true ∧ isQuote q2 = true
          ∧ s = sp ++ '(' :: q :: (run ++ q2 :: rest) := by
  intro sp s run rest h
  unfold matchCall at h
  split at h
  · simp at h
  · simp at h
  · rename_i q r2 heq
    split_ifs at h with hq
    split at h
    · rename_i q2 r3 hdw
      split_ifs at h with hcond
      simp only [Option.some.injEq, Prod.mk.injEq] at h
      obtain ⟨hrun, hrest⟩ := h
      subst hrun
      subst hrest
      refine ⟨hcond.1, fun c hc => aux_mem_tw hc, q, q2, hq, hcond.2, ?_⟩
      have hs := aux_stripPre_eq _ _ _ heq
      have hr2 : r2 = r2.takeWhile argChar ++ q2 :: r3 := by
        conv_lhs => rw [← List.takeWhile_append_dropWhile (p := argChar) (l := r2)]
        rw [hdw]
      rw [hs]
      conv_lhs => rw [hr2]
      simp [List.append_assoc]
    · simp at h

/-- The three-way alternation decomposes likewise, naming which spelling
matched. -/
theorem aux_tryFlag_sound : ∀ (s run rest : List Char),
    tryFlag s = some (run, rest) →
      run ≠ [] ∧ (∀ c ∈ run, argChar c = true)
      ∧ ∃ sp q q2, (sp = spell1 ∨ sp = spell2 ∨ sp = spell3)
          ∧ isQuote q = true ∧ isQuote q2 = true
          ∧ s = sp ++ '(' :: q :: (run ++ q2 :: rest) := by
  intro s run rest h
  unfold tryFlag at h
  split at h
  · rename_i r heq1
    obtain rfl := Option.some.inj h
    obtain ⟨h1, h2, q, q2, hq, hq2, hs⟩ := aux_matchCall_sound _ _ _ _ heq1
    exact ⟨h1, h2, spell1, q, q2, Or.inl rfl, hq, hq2, hs⟩
  · split at h
    · rename_i r heq2
      obtain rfl := Option.some.inj h
      obtain ⟨h1, h2, q, q2, hq, hq2, hs⟩ := aux_matchCall_sound _ _ _ _ heq2
      exact ⟨h1, h2, spell2, q, q2, Or.inr (Or.inl rfl), hq, hq2, hs⟩
    · obtain ⟨h1, h2, q, q2, hq, hq2, hs⟩ := aux_matchCall_sound _ _ _ _ h
      exact ⟨h1, h2, spell3, q, q2, Or.inr (Or.inr rfl), hq, hq2, hs⟩

/-- Soundness of the findall scan, for any fuel: every extracted name is a
nonempty run of argument characters coming from an occurrence of one of the
three spellings followed by `(`, a quote, the name, and a quote. -/
theorem aux_scanGo_sound : ∀ (fuel : Nat) (s n : List Char), n ∈ scanGo fuel s →
    n ≠ [] ∧ (∀ c ∈ n, argChar c = true)
    ∧ ∃ pre sp q q2 suf, (sp = spell1 ∨ sp = spell2 ∨ sp = spell3)
        ∧ isQuote q = true ∧ isQuote q2 = true
        ∧ s = pre ++ (sp ++ '(' :: q :: (n ++ q2 :: suf)) := by
  intro fuel
  induction fuel with
  | zero => intro s n h; simp [scanGo] at h
  | succ fuel ih =>
    intro s n h
    cases s with
    | nil => simp [scanGo] at h
    | cons c t =>
      cases htf : tryFlag (c :: t) with
      | some pr =>
        obtain ⟨run, rest⟩ := pr
        simp only [scanGo, htf] at h
        rcases List.mem_cons.mp h with rfl | htail
        · obtain ⟨h1, h2, sp, q, q2, hsp, hq, hq2, hs⟩ := aux_tryFlag_sound _ _ _ htf
          exact ⟨h1, h2, [], sp, q, q2, rest, hsp, hq, hq2, by rw [hs]; rfl⟩
        · obtain ⟨h1, h2, pre, sp, q, q2, suf, hsp, hq, hq2, hrest⟩ := ih rest n htail
          obtain ⟨_, _, sp0, q0, q02, hsp0, hq0, hq02, hs0⟩ := aux_tryFlag_sound _ _ _ htf
          refine ⟨h1, h2, sp0 ++ '(' :: q0 :: (run ++ q02 :: pre), sp, q, q2, suf, hsp, hq, hq2, ?_⟩
          rw [hs0, hrest]
          simp [List.append_assoc]
      | none =>
        simp only [scanGo, htf] at h
        obtain ⟨h1, h2, pre, sp, q, q2, suf, hsp, hq, hq2, ht⟩ := ih t n h
        exact ⟨h1, h2, c :: pre, sp, q, q2, suf, hsp, hq, hq2, by rw [ht]; rfl⟩

/-- C8, amended: every flag name the scanner extracts is nonempty and free of
single quotes, double quotes, spaces, and newlines — but may contain tabs and
any punctuation, so it need not match `[a-zA-Z0-9_-]+` — and it arises from
an occurrence in the text of one of the spellings `isEnabled`, `is_enabled`,
`check` (possibly as the tail of a longer identifier) followed by `(`, a
quote, the name, and a quote. -/
theorem C8_theorem : ∀ (text : String) (n : List Char), n ∈ scanFlags text.data →
    n ≠ []
    ∧ (∀ c ∈ n, c ≠ squote ∧ c ≠ dquote ∧ c ≠ ' ' ∧ c ≠ '\n')
    ∧ ∃ pre sp q q2 suf, (sp = spell1 ∨ sp = spell2 ∨ sp = spell3)
        ∧ isQuote q = true ∧ isQuote q2 = true
        ∧ text.data = pre ++ (sp ++ '(' :: q :: (n ++ q2 :: suf)) := by
  intro text n h
  obtain ⟨h1, h2, h3⟩ := aux_scanGo_sound _ _ _ h
  refine ⟨h1, fun c hc => ?_, h3⟩
  have ha := h2 c hc
  simp [argChar] at ha
  exact ⟨ha.1.1.1, ha.1.1.2, ha.1.2, ha.2⟩

/-- C8, witness: `isEnabled("newflag")` extracts `newflag`, which the theorem
certifies as quote-, space- and newline-free and as arising from a recognized
call occurrence. -/
theorem C8_witness :
    "newflag".data ∈ scanFlags ("isEnabled(\x22newflag\x22)".data)
    ∧ ("newflag".data ≠ []
      ∧ (∀ c ∈ "newflag".data, c ≠ squote ∧ c ≠ dquote ∧ c ≠ ' ' ∧ c ≠ '\n')
      ∧ ∃ pre sp q q2 suf, (sp = spell1 ∨ sp = spell2 ∨ sp = spell3)
          ∧ isQuote q = true ∧ isQuote q2 = true
          ∧ "isEnabled(\x22newflag\x22)".data
              = pre ++ (sp ++ '(' :: q :: ("newflag".data ++ q2 :: suf))) :=
  ⟨by decide, C8_theorem "isEnabled(\x22newflag\x22)" ("newflag".data) (by decide)⟩

/-- C8, counterexample to the claim as stated: `check("a.\tb")` extracts the
name `a.\tb`, which contains a tab — a whitespace character — and a `.`
outside `[a-zA-Z0-9_-]`. -/
theorem C8_counterexample :
    ['a', '.', '\t', 'b'] ∈ scanFlags ("check(\x22a.\tb\x22)".data)
    ∧ '\t' ∈ (['a', '.', '\t', 'b'] : List Char)
    ∧ Char.isWhitespace '\t' = true
    ∧ isFlagChar '.' = false
    ∧ '.' ∈ (['a', '.', '\t', 'b'] : List Char) := by
  decide
